import Mathlib

/-!
Verification development for the wesee-Blockchain repository.

Shallow embedding of:
  * `contracts/PlayGame.sol`   — the match-escrow state machine
  * `contracts/TokenStore.sol` — the fixed-rate USDT → GT exchange
  * `tools/leaderboard.js`     — the event-driven leaderboard aggregator

Addresses are modelled as `Nat` (0 is the zero address), `bytes32` match ids
as `Nat`, `uint256` amounts as `Nat` with explicit checked-arithmetic guards
(`≤ UINT256MAX`) where the contracts themselves compute (Solidity ≥0.8
reverts on overflow).  A reverting call is modelled as `Except.error`, which
by construction leaves the pre-state unchanged — exactly the EVM's
all-or-nothing transaction semantics.
-/

namespace Wesee

/-- Maximum value of a `uint256`; Solidity 0.8 checked arithmetic reverts
when a computation would exceed it. -/
def UINT256MAX : Nat := 2 ^ 256 - 1

abbrev Addr := Nat
abbrev MatchId := Nat

/-- Update a balance map at one account. -/
def upd (f : Addr → Nat) (a : Addr) (v : Nat) : Addr → Nat :=
  fun x => if x = a then v else f x

/-- An ERC-20 style token ledger: balances and allowances
(`allow o s` is the amount spender `s` may move out of owner `o`).
The GameToken contract itself (`GameToken.sol`) is not under `src/`;
its ledger behaviour is the standard ERC-20 one the spec describes
(transfers fail on insufficient balance, `transferFrom` additionally on
insufficient allowance). -/
structure ERC20 where
  bal : Addr → Nat
  allow : Addr → Addr → Nat

namespace ERC20

/-- `transfer(to, amount)` sent by `from`: succeeds iff `from` holds
`amount`; moves it to `to`.  `none` models a failed (reverting) transfer. -/
def transfer (t : ERC20) (source dst : Addr) (amount : Nat) : Option ERC20 :=
  if amount ≤ t.bal source then
    let b1 := upd t.bal source (t.bal source - amount)
    some { t with bal := upd b1 dst (b1 dst + amount) }
  else none

/-- `transferFrom(owner, to, amount)` called by `spender`: succeeds iff the
allowance and the owner's balance both cover `amount`; the allowance is
consumed (the unlimited-allowance special case of OpenZeppelin ERC-20 is
`UINT256MAX`, which is not consumed). -/
def transferFrom (t : ERC20) (owner spender dst : Addr) (amount : Nat) :
    Option ERC20 :=
  if amount ≤ t.allow owner spender ∧ amount ≤ t.bal owner then
    let a1 : Addr → Addr → Nat :=
      if t.allow owner spender = UINT256MAX then t.allow
      else fun o s =>
        if o = owner ∧ s = spender then t.allow owner spender - amount
        else t.allow o s
    let b1 := upd t.bal owner (t.bal owner - amount)
    some { bal := upd b1 dst (b1 dst + amount), allow := a1 }
  else none

end ERC20

/-- `enum MatchStatus { PENDING, STAKED, SETTLED, REFUNDED }` -/
inductive MatchStatus where
  | PENDING
  | STAKED
  | SETTLED
  | REFUNDED
deriving DecidableEq, Repr

/-- `struct Match` of `PlayGame.sol`. -/
structure MatchData where
  p1 : Addr
  p2 : Addr
  stake : Nat
  startTime : Nat
  status : MatchStatus
  p1Staked : Bool
  p2Staked : Bool
deriving DecidableEq, Repr

/-- The zeroed struct a Solidity `mapping(bytes32 => Match)` returns for an
id never written: all fields zero / false, status `PENDING` (enum value 0). -/
def emptyMatch : MatchData :=
  { p1 := 0, p2 := 0, stake := 0, startTime := 0,
    status := MatchStatus.PENDING, p1Staked := false, p2Staked := false }

/-- `TIMEOUT_DURATION = 24 hours` (in seconds). -/
def TIMEOUT_DURATION : Nat := 24 * 60 * 60

/-- Full state of the deployed `PlayGame` contract together with the
GameToken ledger it moves: `self` is the contract's own address (the escrow
account), `owner` the `Ownable` owner, `backendOperator` the
result-reporting authority. -/
structure GameState where
  token : ERC20
  matchesMap : MatchId → MatchData
  owner : Addr
  backendOperator : Addr
  self : Addr

/-- Write one match record. -/
def updMatch (f : MatchId → MatchData) (id : MatchId) (m : MatchData) :
    MatchId → MatchData :=
  fun k => if k = id then m else f k

/-- `createMatch(matchId, p1, p2, stake)` — `onlyOwner`; guards and effects
in the source's order. -/
def createMatch (s : GameState) (sender : Addr) (matchId : MatchId)
    (p1 p2 : Addr) (stakeAmt : Nat) : Except String GameState :=
  if sender ≠ s.owner then .error "OwnableUnauthorizedAccount"
  else if p1 = 0 ∨ p2 = 0 then .error "Invalid addresses"
  else if p1 = p2 then .error "Players must be different"
  else if stakeAmt = 0 then .error "Stake must be greater than 0"
  else if (s.matchesMap matchId).p1 ≠ 0 then .error "Match already exists"
  else .ok { s with
    matchesMap := updMatch s.matchesMap matchId
      { p1 := p1, p2 := p2, stake := stakeAmt, startTime := 0,
        status := MatchStatus.PENDING, p1Staked := false, p2Staked := false } }

/-- Shared tail of `stake`: pull `stake` GT from the caller into escrow,
then, if this made both flags true, move to STAKED and record the current
block timestamp as `startTime`.  `m2` is the match record with the caller's
flag already set. -/
def finishStake (s : GameState) (matchId : MatchId) (m2 : MatchData)
    (sender now : Nat) : Except String GameState :=
  match s.token.transferFrom sender s.self s.self m2.stake with
  | none => .error "GT transfer failed"
  | some tok =>
    let m3 :=
      if m2.p1Staked ∧ m2.p2Staked then
        { m2 with status := MatchStatus.STAKED, startTime := now }
      else m2
    .ok { s with token := tok, matchesMap := updMatch s.matchesMap matchId m3 }

/-- `stake(matchId)` called by `sender` in a block with timestamp `now`. -/
def stakeCall (s : GameState) (sender : Addr) (now : Nat)
    (matchId : MatchId) : Except String GameState :=
  let m := s.matchesMap matchId
  if m.p1 = 0 then .error "Match does not exist"
  else if m.status ≠ MatchStatus.PENDING then
    .error "Match not in pending status"
  else if ¬(sender = m.p1 ∨ sender = m.p2) then .error "Not a player"
  else if sender = m.p1 then
    if m.p1Staked then .error "Already staked"
    else finishStake s matchId { m with p1Staked := true } sender now
  else
    if m.p2Staked then .error "Already staked"
    else finishStake s matchId { m with p2Staked := true } sender now

/-- `commitResult(matchId, winner)` — only the backend operator; pays
`2 × stake` from escrow to the winner and settles the match. -/
def commitResult (s : GameState) (sender : Addr) (matchId : MatchId)
    (winner : Addr) : Except String GameState :=
  if sender ≠ s.backendOperator then .error "Only backend can commit result"
  else
    let m := s.matchesMap matchId
    if m.p1 = 0 then .error "Match does not exist"
    else if m.status ≠ MatchStatus.STAKED then .error "Match not staked"
    else if ¬(winner = m.p1 ∨ winner = m.p2) then .error "Invalid winner"
    else if UINT256MAX < m.stake * 2 then .error "arithmetic overflow"
    else
      match s.token.transfer s.self winner (m.stake * 2) with
      | none => .error "GT transfer failed"
      | some tok =>
        .ok { s with
              token := tok,
              matchesMap := updMatch s.matchesMap matchId
                { m with status := MatchStatus.SETTLED } }

/-- `refund(matchId)` in a block with timestamp `now` — callable by anyone;
requires STAKED and the 24-hour timeout; returns each recorded stake. -/
def refundCall (s : GameState) (now : Nat) (matchId : MatchId) :
    Except String GameState :=
  let m := s.matchesMap matchId
  if m.p1 = 0 then .error "Match does not exist"
  else if m.status ≠ MatchStatus.STAKED then .error "Match not staked"
  else if UINT256MAX < m.startTime + TIMEOUT_DURATION then
    .error "arithmetic overflow"
  else if now < m.startTime + TIMEOUT_DURATION then
    .error "Timeout not reached"
  else
    let step1 : Option ERC20 :=
      if m.p1Staked then s.token.transfer s.self m.p1 m.stake
      else some s.token
    match step1 with
    | none => .error "GT transfer failed"
    | some t1 =>
      let step2 : Option ERC20 :=
        if m.p2Staked then t1.transfer s.self m.p2 m.stake
        else some t1
      match step2 with
      | none => .error "GT transfer failed"
      | some t2 =>
        .ok { s with
              token := t2,
              matchesMap := updMatch s.matchesMap matchId
                { m with status := MatchStatus.REFUNDED } }

/-- `setBackendOperator(addr)` — `onlyOwner`. -/
def setBackendOperator (s : GameState) (sender a : Addr) :
    Except String GameState :=
  if sender ≠ s.owner then .error "OwnableUnauthorizedAccount"
  else .ok { s with backendOperator := a }

/-- A call to one of the contract's mutating entry points, tagged with the
caller and, where the code reads `block.timestamp`, the block time; plus an
environment step letting other token holders move or approve GT arbitrarily
(the escrow's own records are untouched by such steps). -/
inductive Op where
  | create (sender : Addr) (id : MatchId) (p1 p2 : Addr) (stakeAmt : Nat)
  | stakeTx (sender : Addr) (now : Nat) (id : MatchId)
  | commit (sender : Addr) (id : MatchId) (winner : Addr)
  | refundTx (now : Nat) (id : MatchId)
  | setOperator (sender a : Addr)
  | tokenEnv (t : ERC20)

/-- Apply a call transaction: a revert (`Except.error`) leaves the state
exactly as it was. -/
def applyOp (s : GameState) (op : Op) : GameState :=
  match op with
  | .create sender id p1 p2 st =>
    match createMatch s sender id p1 p2 st with
    | .ok s2 => s2
    | .error _ => s
  | .stakeTx sender now id =>
    match stakeCall s sender now id with
    | .ok s2 => s2
    | .error _ => s
  | .commit sender id w =>
    match commitResult s sender id w with
    | .ok s2 => s2
    | .error _ => s
  | .refundTx now id =>
    match refundCall s now id with
    | .ok s2 => s2
    | .error _ => s
  | .setOperator sender a =>
    match setBackendOperator s sender a with
    | .ok s2 => s2
    | .error _ => s
  | .tokenEnv t => { s with token := t }

/-- Block timestamps on a live chain are positive (a `stake` transaction
never executes at time 0); this is the only environmental fact the
reachability relation assumes. -/
def opTimeValid (op : Op) : Prop :=
  match op with
  | .stakeTx _ now _ => 0 < now
  | _ => True

/-- States of the deployed contract: the constructor installs the deployer
as owner and backend operator with an empty match table, over an arbitrary
pre-existing GameToken ledger; every later state follows by one transaction
or one token-environment step. -/
inductive Reachable : GameState → Prop where
  | deploy (tok : ERC20) (deployer self : Addr) :
      Reachable { token := tok, matchesMap := fun _ => emptyMatch,
                  owner := deployer, backendOperator := deployer,
                  self := self }
  | step {s : GameState} (op : Op) (hs : Reachable s)
      (ht : opTimeValid op) : Reachable (applyOp s op)

/-! ### TokenStore (`contracts/TokenStore.sol`) -/

/-- Modelled from the spec: `GameToken.mint` — `GameToken.sol` itself is not
under `src/`.  Per the spec the fungible token is a balance ledger mintable
by exactly one authority, the TokenStore; the store's call
`gameToken.mint(msg.sender, gtOut)` therefore simply credits the buyer. -/
def mintGT (bal : Addr → Nat) (dst : Addr) (amount : Nat) : Addr → Nat :=
  upd bal dst (bal dst + amount)

/-- State of the deployed `TokenStore` contract together with the two token
ledgers it touches: the external USDT ledger it pulls from and the GameToken
balances it mints into.  `gtPerUsdt` is the immutable rate, `self` the
store's own address. -/
structure StoreState where
  usdt : ERC20
  gtBal : Addr → Nat
  gtPerUsdt : Nat
  self : Addr

/-- `buy(usdtAmount)`: validate, convert at the fixed rate with integer
truncation, pull the USDT via the allowance mechanism, and only then mint
the output to the caller. -/
def buy (s : StoreState) (sender : Addr) (usdtAmount : Nat) :
    Except String StoreState :=
  if usdtAmount = 0 then .error "Amount must be greater than 0"
  else if UINT256MAX < usdtAmount * s.gtPerUsdt then
    .error "arithmetic overflow"
  else
    let gtOut := usdtAmount * s.gtPerUsdt / 1000000
    if gtOut = 0 then .error "Invalid conversion"
    else
      match s.usdt.transferFrom sender s.self s.self usdtAmount with
      | none => .error "USDT transfer failed"
      | some u =>
        .ok { s with usdt := u, gtBal := mintGT s.gtBal sender gtOut }

/-! ### Leaderboard aggregator (`tools/leaderboard.js`)

The aggregator keeps `leaderboardData`, a JS `Map` from address to
`{ wins, totalGTWon, matchesPlayed }`, updated by event callbacks.  A JS
`Map` preserves insertion order: `set` of a present key overwrites in
place, otherwise appends — modelled as an association list.  `totalGTWon`
is a JS number holding `formatUnits(amount, 18)`, i.e. the payout divided
by `10^18`; it is modelled as an exact rational (the embedding abstracts
IEEE-754 rounding). -/

/-- One player's record in `leaderboardData`. -/
structure PlayerStats where
  wins : Nat
  totalGTWon : ℚ
  matchesPlayed : Nat
deriving DecidableEq, Repr

def zeroStats : PlayerStats :=
  { wins := 0, totalGTWon := 0, matchesPlayed := 0 }

/-- The `leaderboardData` map, in insertion order. -/
abbrev Board := List (Addr × PlayerStats)

/-- `leaderboardData.get(a)` / `has(a)`. -/
def getStats (d : Board) (a : Addr) : Option PlayerStats :=
  match d with
  | [] => none
  | (b, st) :: rest => if b = a then some st else getStats rest a

/-- `leaderboardData.set(a, v)`: overwrite in place if present, else
append. -/
def setStats (d : Board) (a : Addr) (v : PlayerStats) : Board :=
  match d with
  | [] => [(a, v)]
  | (b, st) :: rest =>
    if b = a then (b, v) :: rest else (b, st) :: setStats rest a v

/-- A player's stats as served by `GET /player/:address`: the stored record,
or the zero record if the player was never seen. -/
def statsOf (d : Board) (a : Addr) : PlayerStats :=
  (getStats d a).getD zeroStats

/-- `formatUnits(amount, 18)`: a raw 18-decimal token amount in GT units. -/
def gtUnits (amount : Nat) : ℚ :=
  (amount : ℚ) / (10 ^ 18 : ℚ)

/-- The events the aggregator subscribes to, plus the `POST /reset`
operation that clears the table.  A `settled` event carries the outcome of
the handler's asynchronous read-back `playGameContract.matches(matchId)`:
`some (p1, p2)` if the read returned those participants, `none` if it threw
(network failure — the `catch` branch). -/
inductive Ev where
  | matchCreated (id : MatchId) (p1 p2 : Addr) (stakeAmt : Nat)
  | stakedEv (id : MatchId) (player : Addr)
  | settled (id : MatchId) (winner : Addr) (amount : Nat)
      (readBack : Option (Addr × Addr))
  | refunded (id : MatchId) (p1 p2 : Addr) (amount : Nat)
  | purchase (buyer : Addr) (usdtAmount gtOut : Nat)
  | reset

/-- `if (!leaderboardData.has(a)) leaderboardData.set(a, zero)`. -/
def ensureZero (d : Board) (a : Addr) : Board :=
  match getStats d a with
  | some _ => d
  | none => setStats d a zeroStats

/-- The winner-side update of the `Settled` listener: bump the winner's
record (or insert a fresh `{1, amount, 1}` record if absent). -/
def winnerUpdate (d : Board) (winner : Addr) (amount : Nat) : Board :=
  match getStats d winner with
  | some st =>
    setStats d winner
      { wins := st.wins + 1, totalGTWon := st.totalGTWon + gtUnits amount,
        matchesPlayed := st.matchesPlayed + 1 }
  | none =>
    setStats d winner
      { wins := 1, totalGTWon := gtUnits amount, matchesPlayed := 1 }

/-- `updateLoserStats(matchId, winner)`: resolve the loser from the
read-back of `playGameContract.matches(matchId)` and bump their
matches-played count; a failed read (`none`) is caught and logged, leaving
the table as it was. -/
def updateLoserStats (d : Board) (readBack : Option (Addr × Addr))
    (winner : Addr) : Board :=
  match readBack with
  | none => d
  | some (p1, p2) =>
    let loser := if p1 = winner then p2 else p1
    match getStats d loser with
    | some st =>
      setStats d loser { st with matchesPlayed := st.matchesPlayed + 1 }
    | none =>
      setStats d loser { wins := 0, totalGTWon := 0, matchesPlayed := 1 }

/-- The `Settled` handler: winner-side update first, then the loser-side
update driven by the read-back. -/
def handleSettled (d : Board) (winner : Addr) (amount : Nat)
    (readBack : Option (Addr × Addr)) : Board :=
  updateLoserStats (winnerUpdate d winner amount) readBack winner

/-- The `Refunded` handler: bump `matchesPlayed` for each participant that
already has a record. -/
def handleRefunded (d : Board) (p1 p2 : Addr) : Board :=
  let d1 :=
    match getStats d p1 with
    | some st =>
      setStats d p1 { st with matchesPlayed := st.matchesPlayed + 1 }
    | none => d
  match getStats d1 p2 with
  | some st =>
    setStats d1 p2 { st with matchesPlayed := st.matchesPlayed + 1 }
  | none => d1

/-- Dispatch one event to its handler (`Staked` only logs). -/
def processEv (d : Board) (ev : Ev) : Board :=
  match ev with
  | .matchCreated _ p1 p2 _ => ensureZero (ensureZero d p1) p2
  | .stakedEv _ _ => d
  | .settled _ winner amount readBack =>
    handleSettled d winner amount readBack
  | .refunded _ p1 p2 _ => handleRefunded d p1 p2
  | .purchase buyer _ _ => ensureZero d buyer
  | .reset => []

/-- Run the aggregator from an empty table over a finalized event stream. -/
def processEvents (evs : List Ev) : Board :=
  evs.foldl processEv []

/-- `GET /stats`: total wins, accumulated over the table. -/
def totalWins (d : Board) : Nat :=
  (d.map (fun p => p.2.wins)).sum

/-- `GET /stats`: total matches played, accumulated over the table. -/
def totalMatches (d : Board) : Nat :=
  (d.map (fun p => p.2.matchesPlayed)).sum

/-- `GET /stats`: total GT won, accumulated over the table (before the
two-decimal display formatting). -/
def totalGT (d : Board) : ℚ :=
  (d.map (fun p => p.2.totalGTWon)).sum

/-- One step of the payout tally: a settlement adds its amount, a reset
restarts the sum, everything else is neutral. -/
def payoutStep (acc : ℚ) (ev : Ev) : ℚ :=
  match ev with
  | .settled _ _ amount _ => acc + gtUnits amount
  | .reset => 0
  | _ => acc

/-- Sum of the settlement payouts observed since the last reset, in GT
units. -/
def sumPayouts (evs : List Ev) : ℚ :=
  evs.foldl payoutStep 0

/-! ### Invariants and witness fixtures -/

/-- Structural invariant of one stored match record: an id never created
holds the zeroed struct; a PENDING match has no start time yet; any match
past PENDING has both staked-flags set and a recorded start time. -/
def MatchInv (m : MatchData) : Prop :=
  (m.p1 = 0 → m = emptyMatch) ∧
  (m.status = MatchStatus.PENDING → m.startTime = 0) ∧
  (m.status ≠ MatchStatus.PENDING →
    m.p1Staked = true ∧ m.p2Staked = true ∧ m.startTime ≠ 0)

/-- The escrow's structural invariant: every stored match record is
well-formed. -/
def StateInv (s : GameState) : Prop := ∀ id, MatchInv (s.matchesMap id)

/-- The transitions the status spec admits: stay put, PENDING → STAKED, or
STAKED → {SETTLED, REFUNDED}.  SETTLED and REFUNDED can only stay put. -/
def allowedTransition (b a : MatchStatus) : Prop :=
  b = a ∨
  (b = MatchStatus.PENDING ∧ a = MatchStatus.STAKED) ∨
  (b = MatchStatus.STAKED ∧
    (a = MatchStatus.SETTLED ∨ a = MatchStatus.REFUNDED))

/-- Concrete GT ledger for witnesses: players 11 and 12 hold 10 GT each and
have approved the escrow (address 5) for 10 GT. -/
def wTok : ERC20 :=
  { bal := fun a => if a = 11 ∨ a = 12 then 10 else 0,
    allow := fun o sp => if (o = 11 ∨ o = 12) ∧ sp = 5 then 10 else 0 }

/-- Witness chain: freshly deployed escrow (deployer 1, contract address
5). -/
def wS0 : GameState :=
  { token := wTok, matchesMap := fun _ => emptyMatch,
    owner := 1, backendOperator := 1, self := 5 }

/-- Witness chain: match 7 created between players 11 and 12, stake 4. -/
def wS1 : GameState := applyOp wS0 (.create 1 7 11 12 4)

/-- Witness chain: player 11 has staked (match still PENDING). -/
def wS2 : GameState := applyOp wS1 (.stakeTx 11 100 7)

/-- Witness chain: player 12 has also staked (match STAKED at time 100). -/
def wS3 : GameState := applyOp wS2 (.stakeTx 12 100 7)

/-- Concrete TokenStore for witnesses: buyer 20 holds 1 USDT (6-decimal)
and has approved the store (address 6); rate 10^18 GT-wei per USDT-unit. -/
def wStore : StoreState :=
  { usdt := { bal := fun a => if a = 20 then 1000000 else 0,
              allow := fun o sp => if o = 20 ∧ sp = 6 then 1000000 else 0 },
    gtBal := fun _ => 0, gtPerUsdt := 10 ^ 18, self := 6 }

/-- The store state after the witness purchase `buy(10)` by account 20. -/
def wStoreAfter : StoreState :=
  match buy wStore 20 10 with
  | .ok s => s
  | .error _ => wStore

/-! ### Helper notions and operation shape lemmas -/

/-- Whether a call succeeded. -/
def isOkE {ε α : Type} : Except ε α → Bool
  | .ok _ => true
  | .error _ => false

theorem isOkE_ok {ε α : Type} (a : α) : isOkE (ε := ε) (.ok a) = true := rfl

theorem isOkE_error {ε α : Type} (e : ε) :
    isOkE (α := α) (.error e) = false := rfl

/-- Anatomy of a successful `createMatch`: all guards passed and the new
match record is freshly initialized in PENDING. -/
theorem createMatch_ok_shape {s s2 : GameState} {sender : Addr}
    {id : MatchId} {p1 p2 : Addr} {st : Nat}
    (h : createMatch s sender id p1 p2 st = .ok s2) :
    sender = s.owner ∧ p1 ≠ 0 ∧ p2 ≠ 0 ∧ p1 ≠ p2 ∧ st ≠ 0 ∧
    (s.matchesMap id).p1 = 0 ∧
    s2 = { s with
           matchesMap := updMatch s.matchesMap id
             { p1 := p1, p2 := p2, stake := st, startTime := 0,
               status := MatchStatus.PENDING,
               p1Staked := false, p2Staked := false } } := by
  unfold createMatch at h
  split at h
  · exact absurd h (by simp)
  · split at h
    · exact absurd h (by simp)
    · split at h
      · exact absurd h (by simp)
      · split at h
        · exact absurd h (by simp)
        · split at h
          · exact absurd h (by simp)
          · rename_i h1 h2 h3 h4 h5
            push_neg at h1 h2 h5
            injection h with h
            exact ⟨h1, h2.1, h2.2, h3, h4, h5, h.symm⟩

/-- Anatomy of a successful `stake`: the match existed in PENDING, only the
match record under this id changes, its identity fields are untouched, and
the status either stays PENDING or — exactly when the other side had
already staked — becomes STAKED with `startTime` set to the block time. -/
theorem stakeCall_ok_shape {s s2 : GameState} {sender now : Nat}
    {id : MatchId} (h : stakeCall s sender now id = .ok s2) :
    (s.matchesMap id).p1 ≠ 0 ∧
    (s.matchesMap id).status = MatchStatus.PENDING ∧
    s2.owner = s.owner ∧ s2.backendOperator = s.backendOperator ∧
    s2.self = s.self ∧
    (∀ k, k ≠ id → s2.matchesMap k = s.matchesMap k) ∧
    (s2.matchesMap id).p1 = (s.matchesMap id).p1 ∧
    (s2.matchesMap id).p2 = (s.matchesMap id).p2 ∧
    (s2.matchesMap id).stake = (s.matchesMap id).stake ∧
    (((s2.matchesMap id).status = MatchStatus.PENDING ∧
      (s2.matchesMap id).startTime = (s.matchesMap id).startTime) ∨
     ((s2.matchesMap id).status = MatchStatus.STAKED ∧
      (s2.matchesMap id).p1Staked = true ∧
      (s2.matchesMap id).p2Staked = true ∧
      (s2.matchesMap id).startTime = now ∧
      ((s.matchesMap id).p1Staked = true ∨
        (s.matchesMap id).p2Staked = true))) := by
  simp only [stakeCall, finishStake] at h
  split at h
  · exact absurd h (by simp)
  split at h
  · exact absurd h (by simp)
  split at h
  · exact absurd h (by simp)
  rename_i hex hpend hplayer
  rw [not_not] at hpend
  split at h
  · -- sender = p1
    rename_i hs1
    split at h
    · exact absurd h (by simp)
    rename_i hns1
    split at h
    · exact absurd h (by simp)
    rename_i tok htok
    split at h
    · -- both flags now true: p2 had staked
      rename_i hboth
      injection h with h
      subst h
      refine ⟨hex, hpend, rfl, rfl, rfl, ?_, ?_⟩
      · intro k hk; simp [updMatch, hk]
      · simp only [updMatch, if_pos rfl]
        refine ⟨rfl, rfl, rfl, Or.inr ⟨rfl, rfl, ?_, rfl, ?_⟩⟩
        · exact hboth.2
        · exact Or.inr hboth.2
    · -- only this side staked: still PENDING
      injection h with h
      subst h
      refine ⟨hex, hpend, rfl, rfl, rfl, ?_, ?_⟩
      · intro k hk; simp [updMatch, hk]
      · simp only [updMatch, if_pos rfl]
        exact ⟨rfl, rfl, rfl, Or.inl ⟨hpend, rfl⟩⟩
  · -- sender = p2 side
    split at h
    · exact absurd h (by simp)
    rename_i hns2
    split at h
    · exact absurd h (by simp)
    rename_i tok htok
    split at h
    · rename_i hboth
      injection h with h
      subst h
      refine ⟨hex, hpend, rfl, rfl, rfl, ?_, ?_⟩
      · intro k hk; simp [updMatch, hk]
      · simp only [updMatch, if_pos rfl]
        refine ⟨rfl, rfl, rfl, Or.inr ⟨rfl, ?_, rfl, rfl, ?_⟩⟩
        · exact hboth.1
        · exact Or.inl hboth.1
    · injection h with h
      subst h
      refine ⟨hex, hpend, rfl, rfl, rfl, ?_, ?_⟩
      · intro k hk; simp [updMatch, hk]
      · simp only [updMatch, if_pos rfl]
        exact ⟨rfl, rfl, rfl, Or.inl ⟨hpend, rfl⟩⟩

/-- Anatomy of a successful `commitResult`: the caller is the backend
operator, the match existed in STAKED and a declared participant won; only
this match record changes, and only its status, to SETTLED. -/
theorem commitResult_ok_shape {s s2 : GameState} {sender : Addr}
    {id : MatchId} {winner : Addr}
    (h : commitResult s sender id winner = .ok s2) :
    sender = s.backendOperator ∧
    (s.matchesMap id).p1 ≠ 0 ∧
    (s.matchesMap id).status = MatchStatus.STAKED ∧
    (winner = (s.matchesMap id).p1 ∨ winner = (s.matchesMap id).p2) ∧
    s2.owner = s.owner ∧ s2.backendOperator = s.backendOperator ∧
    s2.self = s.self ∧
    (∀ k, k ≠ id → s2.matchesMap k = s.matchesMap k) ∧
    s2.matchesMap id
      = { s.matchesMap id with status := MatchStatus.SETTLED } := by
  simp only [commitResult] at h
  split at h
  · exact absurd h (by simp)
  split at h
  · exact absurd h (by simp)
  split at h
  · exact absurd h (by simp)
  split at h
  · exact absurd h (by simp)
  split at h
  · exact absurd h (by simp)
  rename_i hop hex hst hwin hov
  rw [not_not] at hst
  rw [not_not] at hwin
  split at h
  · exact absurd h (by simp)
  · rename_i tok htok
    injection h with h
    subst h
    push_neg at hop
    refine ⟨hop, hex, hst, hwin, rfl, rfl, rfl, ?_, ?_⟩
    · intro k hk; simp [updMatch, hk]
    · simp [updMatch]

/-- Anatomy of a successful `refund`: the match existed in STAKED and the
24-hour window had elapsed; only this match record changes, and only its
status, to REFUNDED. -/
theorem refundCall_ok_shape {s s2 : GameState} {now : Nat} {id : MatchId}
    (h : refundCall s now id = .ok s2) :
    (s.matchesMap id).p1 ≠ 0 ∧
    (s.matchesMap id).status = MatchStatus.STAKED ∧
    (s.matchesMap id).startTime + TIMEOUT_DURATION ≤ now ∧
    s2.owner = s.owner ∧ s2.backendOperator = s.backendOperator ∧
    s2.self = s.self ∧
    (∀ k, k ≠ id → s2.matchesMap k = s.matchesMap k) ∧
    s2.matchesMap id
      = { s.matchesMap id with status := MatchStatus.REFUNDED } := by
  simp only [refundCall] at h
  split at h
  · exact absurd h (by simp)
  split at h
  · exact absurd h (by simp)
  split at h
  · exact absurd h (by simp)
  split at h
  · exact absurd h (by simp)
  rename_i hex hst hov htime
  rw [not_not] at hst
  rw [Nat.not_lt] at htime
  split at h
  · exact absurd h (by simp)
  rename_i t1 ht1
  split at h
  · exact absurd h (by simp)
  rename_i t2 ht2
  injection h with h
  subst h
  refine ⟨hex, hst, htime, rfl, rfl, rfl, ?_, ?_⟩
  · intro k hk; simp [updMatch, hk]
  · simp [updMatch]

/-- Every contract entry point preserves the structural match invariant
(rejections trivially so, since a revert changes nothing). -/
theorem stateInv_preserved {s : GameState} (op : Op) (hInv : StateInv s)
    (ht : opTimeValid op) : StateInv (applyOp s op) := by
  cases op with
  | create sender mid p1 p2 st =>
    simp only [applyOp]
    cases h : createMatch s sender mid p1 p2 st with
    | error e => exact hInv
    | ok s2 =>
      obtain ⟨-, hp1, -, -, -, -, hs2⟩ := createMatch_ok_shape h
      subst hs2
      intro k
      by_cases hk : k = mid
      · subst hk
        simp only [updMatch, if_pos rfl]
        exact ⟨fun h0 => absurd h0 hp1, fun _ => rfl,
          fun hne => absurd rfl hne⟩
      · simp only [updMatch, if_neg hk]
        exact hInv k
  | stakeTx sender now mid =>
    simp only [applyOp]
    cases h : stakeCall s sender now mid with
    | error e => exact hInv
    | ok s2 =>
      obtain ⟨hex, hpend, -, -, -, hother, hp1, -, -, hcase⟩ :=
        stakeCall_ok_shape h
      simp only [opTimeValid] at ht
      intro k
      by_cases hk : k = mid
      · subst hk
        rcases hcase with ⟨hst, hstart⟩ | ⟨hst, hf1, hf2, hstart, -⟩
        · refine ⟨?_, ?_, ?_⟩
          · intro h0; rw [hp1] at h0; exact absurd h0 hex
          · intro _; rw [hstart]; exact (hInv k).2.1 hpend
          · intro hne; exact absurd hst hne
        · refine ⟨?_, ?_, ?_⟩
          · intro h0; rw [hp1] at h0; exact absurd h0 hex
          · intro hP; rw [hst] at hP; exact absurd hP (by simp)
          · intro _
            refine ⟨hf1, hf2, ?_⟩
            rw [hstart]
            exact Nat.pos_iff_ne_zero.mp ht
      · rw [hother k hk]; exact hInv k
  | commit sender mid w =>
    simp only [applyOp]
    cases h : commitResult s sender mid w with
    | error e => exact hInv
    | ok s2 =>
      obtain ⟨-, hex, hst, -, -, -, -, hother, hrec⟩ :=
        commitResult_ok_shape h
      intro k
      by_cases hk : k = mid
      · subst hk
        rw [hrec]
        have hflags := (hInv k).2.2 (by rw [hst]; simp)
        refine ⟨fun h0 => absurd h0 hex, ?_, ?_⟩
        · intro hP; exact absurd hP (by simp)
        · intro _; exact hflags
      · rw [hother k hk]; exact hInv k
  | refundTx now mid =>
    simp only [applyOp]
    cases h : refundCall s now mid with
    | error e => exact hInv
    | ok s2 =>
      obtain ⟨hex, hst, -, -, -, -, hother, hrec⟩ := refundCall_ok_shape h
      intro k
      by_cases hk : k = mid
      · subst hk
        rw [hrec]
        have hflags := (hInv k).2.2 (by rw [hst]; simp)
        refine ⟨fun h0 => absurd h0 hex, ?_, ?_⟩
        · intro hP; exact absurd hP (by simp)
        · intro _; exact hflags
      · rw [hother k hk]; exact hInv k
  | setOperator sender a =>
    simp only [applyOp]
    cases h : setBackendOperator s sender a with
    | error e => exact hInv
    | ok s2 =>
      simp only [setBackendOperator] at h
      split at h
      · exact absurd h (by simp)
      · injection h with h
        subst h
        exact hInv
  | tokenEnv t =>
    simp only [applyOp]
    exact hInv

/-- Every reachable state of the deployed escrow satisfies the structural
match invariant. -/
theorem reachable_inv {s : GameState} (h : Reachable s) : StateInv s := by
  induction h with
  | deploy tok deployer self =>
    intro id
    exact ⟨fun _ => rfl, fun _ => rfl, fun hne => absurd rfl hne⟩
  | step op hs ht ih => exact stateInv_preserved op ih ht

theorem upd_same (f : Addr → Nat) (a : Addr) (v : Nat) : upd f a v a = v := by
  simp [upd]

theorem upd_other (f : Addr → Nat) (a : Addr) (v : Nat) (b : Addr)
    (h : b ≠ a) : upd f a v b = f b := by
  simp [upd, h]

/-- A transfer covered by the sender's balance succeeds, with the evident
balance update. -/
theorem transfer_of_le {t : ERC20} {src dst : Addr} {amt : Nat}
    (h : amt ≤ t.bal src) :
    t.transfer src dst amt
      = some { t with
               bal := upd (upd t.bal src (t.bal src - amt)) dst
                 ((upd t.bal src (t.bal src - amt)) dst + amt) } := by
  simp only [ERC20.transfer]
  rw [if_pos h]

/-- C10: in every reachable state of the escrow, a match in STAKED, SETTLED
or REFUNDED status has both staked-flags true and a non-zero start time,
and a PENDING match has start time zero — so the defensively guarded
flag-false branch of `refund` can never be taken. -/
theorem c10_reachable_flag_inv (s : GameState) (hr : Reachable s)
    (id : MatchId) :
    (((s.matchesMap id).status = MatchStatus.STAKED ∨
      (s.matchesMap id).status = MatchStatus.SETTLED ∨
      (s.matchesMap id).status = MatchStatus.REFUNDED) →
      (s.matchesMap id).p1Staked = true ∧
      (s.matchesMap id).p2Staked = true ∧
      (s.matchesMap id).startTime ≠ 0) ∧
    ((s.matchesMap id).status = MatchStatus.PENDING →
      (s.matchesMap id).startTime = 0) := by
  have hInv := reachable_inv hr id
  refine ⟨?_, hInv.2.1⟩
  intro hcase
  apply hInv.2.2
  rcases hcase with h | h | h <;> rw [h] <;> simp

/-- C2: from any reachable state, any operation moves any match's status
only along PENDING → STAKED → {SETTLED, REFUNDED}: a SETTLED or REFUNDED
match never changes status, and a PENDING match never jumps straight to a
terminal status.  As every state along any operation sequence from
deployment is reachable, statuses only ever move along this order. -/
theorem c2_status_transitions (s : GameState) (op : Op) (id : MatchId)
    (hr : Reachable s) :
    allowedTransition (s.matchesMap id).status
      ((applyOp s op).matchesMap id).status := by
  have hInv := reachable_inv hr
  cases op with
  | create sender mid p1 p2 st =>
    simp only [applyOp]
    cases h : createMatch s sender mid p1 p2 st with
    | error e => exact Or.inl rfl
    | ok s2 =>
      obtain ⟨-, -, -, -, -, hzero, hs2⟩ := createMatch_ok_shape h
      subst hs2
      by_cases hk : id = mid
      · subst hk
        have hempty : s.matchesMap id = emptyMatch := (hInv id).1 hzero
        rw [hempty]
        simp only [updMatch, if_pos rfl]
        exact Or.inl rfl
      · simp only [updMatch, if_neg hk]
        exact Or.inl rfl
  | stakeTx sender now mid =>
    simp only [applyOp]
    cases h : stakeCall s sender now mid with
    | error e => exact Or.inl rfl
    | ok s2 =>
      obtain ⟨-, hpend, -, -, -, hother, -, -, -, hcase⟩ :=
        stakeCall_ok_shape h
      by_cases hk : id = mid
      · subst hk
        rcases hcase with ⟨hst, -⟩ | ⟨hst, -, -, -, -⟩
        · rw [hpend, hst]; exact Or.inl rfl
        · rw [hpend, hst]; exact Or.inr (Or.inl ⟨rfl, rfl⟩)
      · rw [hother id hk]; exact Or.inl rfl
  | commit sender mid w =>
    simp only [applyOp]
    cases h : commitResult s sender mid w with
    | error e => exact Or.inl rfl
    | ok s2 =>
      obtain ⟨-, -, hst, -, -, -, -, hother, hrec⟩ := commitResult_ok_shape h
      by_cases hk : id = mid
      · subst hk
        rw [hst, hrec]
        exact Or.inr (Or.inr ⟨rfl, Or.inl rfl⟩)
      · rw [hother id hk]; exact Or.inl rfl
  | refundTx now mid =>
    simp only [applyOp]
    cases h : refundCall s now mid with
    | error e => exact Or.inl rfl
    | ok s2 =>
      obtain ⟨-, hst, -, -, -, -, hother, hrec⟩ := refundCall_ok_shape h
      by_cases hk : id = mid
      · subst hk
        rw [hst, hrec]
        exact Or.inr (Or.inr ⟨rfl, Or.inr rfl⟩)
      · rw [hother id hk]; exact Or.inl rfl
  | setOperator sender a =>
    simp only [applyOp]
    cases h : setBackendOperator s sender a with
    | error e => exact Or.inl rfl
    | ok s2 =>
      simp only [setBackendOperator] at h
      split at h
      · exact absurd h (by simp)
      · injection h with h
        subst h
        exact Or.inl rfl
  | tokenEnv t =>
    simp only [applyOp]
    exact Or.inl rfl

/-- C1: for a match in STAKED status (escrow solvent, payout within uint256
range), `commitResult` by the backend operator with a declared participant
as winner succeeds, pays exactly 2 × stake from escrow to the winner and
settles the match; any winner that is not a declared participant is
rejected. -/
theorem c1_commit_pays_double_stake (s : GameState) (sender : Addr)
    (id : MatchId) (winner : Addr)
    (hop : sender = s.backendOperator)
    (hex : (s.matchesMap id).p1 ≠ 0)
    (hst : (s.matchesMap id).status = MatchStatus.STAKED)
    (hov : (s.matchesMap id).stake * 2 ≤ UINT256MAX)
    (hbal : (s.matchesMap id).stake * 2 ≤ s.token.bal s.self) :
    ((winner = (s.matchesMap id).p1 ∨ winner = (s.matchesMap id).p2) →
      ∃ s2, commitResult s sender id winner = .ok s2 ∧
        (s2.matchesMap id).status = MatchStatus.SETTLED ∧
        (winner ≠ s.self →
          s2.token.bal winner
            = s.token.bal winner + (s.matchesMap id).stake * 2 ∧
          s2.token.bal s.self
            = s.token.bal s.self - (s.matchesMap id).stake * 2)) ∧
    (¬(winner = (s.matchesMap id).p1 ∨ winner = (s.matchesMap id).p2) →
      commitResult s sender id winner = .error "Invalid winner") := by
  have h1 : ¬(sender ≠ s.backendOperator) := by simp [hop]
  have h2 : ¬((s.matchesMap id).p1 = 0) := hex
  have h3 : ¬((s.matchesMap id).status ≠ MatchStatus.STAKED) := by
    simp [hst]
  have h5 : ¬(UINT256MAX < (s.matchesMap id).stake * 2) := Nat.not_lt.mpr hov
  constructor
  · intro hwin
    simp only [commitResult]
    rw [if_neg h1, if_neg h2, if_neg h3, if_neg (not_not.mpr hwin),
      if_neg h5, transfer_of_le hbal]
    refine ⟨_, rfl, ?_, ?_⟩
    · simp [updMatch]
    · intro hw
      constructor
      · dsimp only
        rw [upd_same, upd_other _ _ _ _ hw]
      · dsimp only
        rw [upd_other _ _ _ _ (Ne.symm hw), upd_same]
  · intro hwin
    simp only [commitResult]
    rw [if_neg h1, if_neg h2, if_neg h3, if_pos hwin]

/-- A transfer covered by the sender's balance cannot fail. -/
theorem transfer_ne_none {t : ERC20} {src dst : Addr} {amt : Nat}
    (h : amt ≤ t.bal src) : t.transfer src dst amt ≠ none := by
  rw [transfer_of_le h]
  simp

/-- C4: for a match in STAKED status (escrow solvent, no overflow),
`refund` succeeds exactly when the block time has reached
`startTime + 24 hours`: it succeeds at the boundary and at any later time,
and is rejected at any strictly earlier time — in particular one second
before the boundary. -/
theorem c4_refund_iff_timeout (s : GameState) (now : Nat) (id : MatchId)
    (hex : (s.matchesMap id).p1 ≠ 0)
    (hst : (s.matchesMap id).status = MatchStatus.STAKED)
    (hov : (s.matchesMap id).startTime + TIMEOUT_DURATION ≤ UINT256MAX)
    (hbal : (s.matchesMap id).stake * 2 ≤ s.token.bal s.self) :
    (∃ s2, refundCall s now id = .ok s2) ↔
      (s.matchesMap id).startTime + TIMEOUT_DURATION ≤ now := by
  constructor
  · rintro ⟨s2, h⟩
    exact (refundCall_ok_shape h).2.2.1
  · intro htime
    have hsk : (s.matchesMap id).stake ≤ s.token.bal s.self := by omega
    have h3 : ¬((s.matchesMap id).status ≠ MatchStatus.STAKED) :=
      not_not.mpr hst
    have h4 : ¬(UINT256MAX <
        (s.matchesMap id).startTime + TIMEOUT_DURATION) :=
      Nat.not_lt.mpr hov
    have h5 : ¬(now < (s.matchesMap id).startTime + TIMEOUT_DURATION) :=
      Nat.not_lt.mpr htime
    simp only [refundCall]
    rw [if_neg hex, if_neg h3, if_neg h4, if_neg h5]
    split
    · rename_i heq
      exfalso
      by_cases hf1 : (s.matchesMap id).p1Staked = true
      · rw [if_pos hf1] at heq
        exact transfer_ne_none hsk heq
      · rw [if_neg hf1] at heq
        exact absurd heq (by simp)
    · rename_i t1 heq1
      split
      · rename_i heq2
        exfalso
        by_cases hf1 : (s.matchesMap id).p1Staked = true
        · rw [if_pos hf1, transfer_of_le hsk] at heq1
          injection heq1 with heq1
          subst heq1
          by_cases hf2 : (s.matchesMap id).p2Staked = true
          · rw [if_pos hf2] at heq2
            refine transfer_ne_none ?_ heq2
            dsimp only
            simp only [upd]
            split_ifs <;> omega
          · rw [if_neg hf2] at heq2
            exact absurd heq2 (by simp)
        · rw [if_neg hf1] at heq1
          injection heq1 with heq1
          subst heq1
          by_cases hf2 : (s.matchesMap id).p2Staked = true
          · rw [if_pos hf2] at heq2
            exact transfer_ne_none hsk heq2
          · rw [if_neg hf2] at heq2
            exact absurd heq2 (by simp)
      · exact ⟨_, rfl⟩

/-- C5: `buy` rejects a zero (non-positive) amount; a conversion that
truncates to zero is rejected; and on success the USDT pull from the
caller succeeded and exactly `amount * rate / 10^6` (integer truncation)
was minted to the caller and to nobody else — so no GT is ever minted
unless the pull succeeds. -/
theorem c5_buy_fixed_rate (s : StoreState) (sender : Addr)
    (usdtAmount : Nat) :
    (usdtAmount = 0 →
      buy s sender usdtAmount = .error "Amount must be greater than 0") ∧
    (usdtAmount ≠ 0 → usdtAmount * s.gtPerUsdt ≤ UINT256MAX →
      usdtAmount * s.gtPerUsdt / 1000000 = 0 →
      buy s sender usdtAmount = .error "Invalid conversion") ∧
    (∀ s2, buy s sender usdtAmount = .ok s2 →
      usdtAmount ≠ 0 ∧
      usdtAmount * s.gtPerUsdt / 1000000 ≠ 0 ∧
      s.usdt.transferFrom sender s.self s.self usdtAmount
        = some s2.usdt ∧
      s2.gtBal sender
        = s.gtBal sender + usdtAmount * s.gtPerUsdt / 1000000 ∧
      (∀ a, a ≠ sender → s2.gtBal a = s.gtBal a)) := by
  refine ⟨?_, ?_, ?_⟩
  · intro h
    simp [buy, h]
  · intro h0 hov hz
    simp only [buy]
    rw [if_neg h0, if_neg (Nat.not_lt.mpr hov), if_pos hz]
  · intro s2 h
    simp only [buy] at h
    split at h
    · exact absurd h (by simp)
    split at h
    · exact absurd h (by simp)
    split at h
    · exact absurd h (by simp)
    rename_i h0 hov hz
    split at h
    · exact absurd h (by simp)
    rename_i u hu
    injection h with h
    subst h
    refine ⟨h0, hz, ?_, ?_, ?_⟩
    · rw [hu]
    · dsimp only
      simp only [mintGT]
      exact upd_same _ _ _
    · intro a ha
      dsimp only
      simp only [mintGT]
      exact upd_other _ _ _ _ ha

/-- C6: `stake` is rejected for an unknown id, for a match that is not
PENDING, for a caller that is not a declared participant, and for a
participant that has already staked; and any rejected call leaves the
entire state — staked-flags and balances included — unchanged. -/
theorem c6_stake_rejections (s : GameState) (sender : Addr) (now : Nat)
    (id : MatchId) :
    ((s.matchesMap id).p1 = 0 →
      ∃ e, stakeCall s sender now id = .error e) ∧
    ((s.matchesMap id).status ≠ MatchStatus.PENDING →
      ∃ e, stakeCall s sender now id = .error e) ∧
    (sender ≠ (s.matchesMap id).p1 → sender ≠ (s.matchesMap id).p2 →
      ∃ e, stakeCall s sender now id = .error e) ∧
    (sender = (s.matchesMap id).p1 →
      (s.matchesMap id).p1Staked = true →
      ∃ e, stakeCall s sender now id = .error e) ∧
    (sender = (s.matchesMap id).p2 →
      (s.matchesMap id).p1 ≠ (s.matchesMap id).p2 →
      (s.matchesMap id).p2Staked = true →
      ∃ e, stakeCall s sender now id = .error e) ∧
    (∀ e, stakeCall s sender now id = .error e →
      applyOp s (.stakeTx sender now id) = s) := by
  refine ⟨?_, ?_, ?_, ?_, ?_, ?_⟩
  · intro h
    simp only [stakeCall]
    rw [if_pos h]
    exact ⟨_, rfl⟩
  · intro h
    simp only [stakeCall]
    by_cases hp : (s.matchesMap id).p1 = 0
    · rw [if_pos hp]; exact ⟨_, rfl⟩
    · rw [if_neg hp, if_pos h]; exact ⟨_, rfl⟩
  · intro h1 h2
    simp only [stakeCall]
    by_cases hp : (s.matchesMap id).p1 = 0
    · rw [if_pos hp]; exact ⟨_, rfl⟩
    rw [if_neg hp]
    by_cases hq : (s.matchesMap id).status ≠ MatchStatus.PENDING
    · rw [if_pos hq]; exact ⟨_, rfl⟩
    rw [if_neg hq, if_pos (by rintro (h | h) <;> [exact h1 h; exact h2 h])]
    exact ⟨_, rfl⟩
  · intro h1 h2
    simp only [stakeCall]
    by_cases hp : (s.matchesMap id).p1 = 0
    · rw [if_pos hp]; exact ⟨_, rfl⟩
    rw [if_neg hp]
    by_cases hq : (s.matchesMap id).status ≠ MatchStatus.PENDING
    · rw [if_pos hq]; exact ⟨_, rfl⟩
    rw [if_neg hq, if_neg (not_not.mpr (Or.inl h1)), if_pos h1,
      if_pos h2]
    exact ⟨_, rfl⟩
  · intro h1 hne h2
    have h1' : sender ≠ (s.matchesMap id).p1 := by
      intro hc; exact hne (hc.symm.trans h1)
    simp only [stakeCall]
    by_cases hp : (s.matchesMap id).p1 = 0
    · rw [if_pos hp]; exact ⟨_, rfl⟩
    rw [if_neg hp]
    by_cases hq : (s.matchesMap id).status ≠ MatchStatus.PENDING
    · rw [if_pos hq]; exact ⟨_, rfl⟩
    rw [if_neg hq, if_neg (not_not.mpr (Or.inr h1)), if_neg h1',
      if_pos h2]
    exact ⟨_, rfl⟩
  · intro e he
    simp only [applyOp]
    rw [he]

/-- C7: once `createMatch` has succeeded under an id, the stored record is
the freshly initialized PENDING match, and any second `createMatch` under
the same id is rejected, leaving that record — and all other state —
unchanged. -/
theorem c7_create_duplicate_rejected (s s1 : GameState) (sender : Addr)
    (id : MatchId) (p1 p2 : Addr) (st : Nat)
    (h : createMatch s sender id p1 p2 st = .ok s1) :
    s1.matchesMap id
      = { p1 := p1, p2 := p2, stake := st, startTime := 0,
          status := MatchStatus.PENDING,
          p1Staked := false, p2Staked := false } ∧
    (∀ sender2 q1 q2 st2,
      (∃ e, createMatch s1 sender2 id q1 q2 st2 = .error e) ∧
      applyOp s1 (.create sender2 id q1 q2 st2) = s1) := by
  obtain ⟨-, hp10, -, -, -, -, hs1⟩ := createMatch_ok_shape h
  have hrec : s1.matchesMap id
      = { p1 := p1, p2 := p2, stake := st, startTime := 0,
          status := MatchStatus.PENDING,
          p1Staked := false, p2Staked := false } := by
    rw [hs1]
    simp [updMatch]
  refine ⟨hrec, ?_⟩
  intro sender2 q1 q2 st2
  have hp1ne : (s1.matchesMap id).p1 ≠ 0 := by
    rw [hrec]
    exact hp10
  have herr : ∃ e, createMatch s1 sender2 id q1 q2 st2 = .error e := by
    simp only [createMatch]
    by_cases hc1 : sender2 ≠ s1.owner
    · rw [if_pos hc1]; exact ⟨_, rfl⟩
    rw [if_neg hc1]
    by_cases hc2 : q1 = 0 ∨ q2 = 0
    · rw [if_pos hc2]; exact ⟨_, rfl⟩
    rw [if_neg hc2]
    by_cases hc3 : q1 = q2
    · rw [if_pos hc3]; exact ⟨_, rfl⟩
    rw [if_neg hc3]
    by_cases hc4 : st2 = 0
    · rw [if_pos hc4]; exact ⟨_, rfl⟩
    rw [if_neg hc4, if_pos hp1ne]
    exact ⟨_, rfl⟩
  refine ⟨herr, ?_⟩
  obtain ⟨e, he⟩ := herr
  simp only [applyOp]
  rw [he]

/-- C3 counterexample: a concrete run in which a match is created, only
player 11 stakes, and far more than 24 hours and one second later `refund`
is rejected with "Match not staked" instead of succeeding — the match is
still PENDING with player 11's stake still in escrow, and the state is
unchanged. -/
theorem c3_counterexample :
    isOkE (createMatch wS0 1 7 11 12 4) = true ∧
    isOkE (stakeCall wS1 11 100 7) = true ∧
    (wS2.matchesMap 7).p1Staked = true ∧
    (wS2.matchesMap 7).p2Staked = false ∧
    (wS2.matchesMap 7).status = MatchStatus.PENDING ∧
    wS2.token.bal 5 = 4 ∧
    refundCall wS2 200000 7 = .error "Match not staked" ∧
    applyOp wS2 (.refundTx 200000 7) = wS2 :=
  ⟨rfl, rfl, rfl, rfl, rfl, rfl, rfl, rfl⟩

/-- C3 amended: if a match is created and then exactly one participant
stakes, a `refund` call is rejected at every time — in particular after
24 hours plus one second — and leaves the state unchanged: the match stays
PENDING, the staked participant's stake stays in escrow, and the
never-staked participant receives nothing. -/
theorem c3_amended_refund_rejected (s s1 s2 : GameState)
    (sender staker : Addr) (nowS now : Nat) (id : MatchId)
    (p1 p2 : Addr) (st : Nat)
    (hc : createMatch s sender id p1 p2 st = .ok s1)
    (hs : stakeCall s1 staker nowS id = .ok s2) :
    (s2.matchesMap id).status = MatchStatus.PENDING ∧
    (∃ e, refundCall s2 now id = .error e) ∧
    applyOp s2 (.refundTx now id) = s2 := by
  obtain ⟨-, hp10, -, -, -, -, hs1⟩ := createMatch_ok_shape hc
  subst hs1
  obtain ⟨-, -, -, -, -, -, hq1, -, -, hcase⟩ := stakeCall_ok_shape hs
  have hPend : (s2.matchesMap id).status = MatchStatus.PENDING := by
    rcases hcase with ⟨hst, -⟩ | ⟨-, -, -, -, hpre⟩
    · exact hst
    · exact absurd hpre (by simp [updMatch])
  have hp1s2 : (s2.matchesMap id).p1 ≠ 0 := by
    rw [hq1]
    simpa [updMatch] using hp10
  have herr : ∃ e, refundCall s2 now id = .error e := by
    simp only [refundCall]
    rw [if_neg hp1s2, if_pos (by rw [hPend]; simp)]
    exact ⟨_, rfl⟩
  refine ⟨hPend, herr, ?_⟩
  obtain ⟨e, he⟩ := herr
  simp only [applyOp]
  rw [he]

/-! ### Leaderboard map lemmas -/

theorem getStats_mem {d : Board} {a : Addr} {st : PlayerStats}
    (h : getStats d a = some st) : (a, st) ∈ d := by
  induction d with
  | nil => simp [getStats] at h
  | cons p rest ih =>
    obtain ⟨b, st'⟩ := p
    simp only [getStats] at h
    split at h
    · rename_i hb
      injection h with h
      subst hb h
      exact List.mem_cons_self _ _
    · exact List.mem_cons_of_mem _ (ih h)

theorem mem_setStats {d : Board} {a : Addr} {v : PlayerStats}
    {q : Addr × PlayerStats} (h : q ∈ setStats d a v) :
    q = (a, v) ∨ q ∈ d := by
  induction d with
  | nil =>
    simp only [setStats, List.mem_singleton] at h
    exact Or.inl h
  | cons p rest ih =>
    obtain ⟨b, st'⟩ := p
    simp only [setStats] at h
    split at h
    · rename_i hb
      subst hb
      rcases List.mem_cons.mp h with h | h
      · exact Or.inl h
      · exact Or.inr (List.mem_cons_of_mem _ h)
    · rcases List.mem_cons.mp h with h | h
      · exact Or.inr (h ▸ List.mem_cons_self _ _)
      · rcases ih h with h | h
        · exact Or.inl h
        · exact Or.inr (List.mem_cons_of_mem _ h)

theorem getStats_setStats_same (d : Board) (a : Addr) (v : PlayerStats) :
    getStats (setStats d a v) a = some v := by
  induction d with
  | nil => simp [setStats, getStats]
  | cons p rest ih =>
    obtain ⟨b, st'⟩ := p
    simp only [setStats]
    split
    · rename_i hb
      simp [getStats, hb]
    · simp only [getStats]
      rename_i hb
      rw [if_neg hb]
      exact ih

theorem getStats_setStats_other (d : Board) (a : Addr) (v : PlayerStats)
    (b : Addr) (h : b ≠ a) :
    getStats (setStats d a v) b = getStats d b := by
  induction d with
  | nil =>
    simp only [setStats, getStats]
    rw [if_neg (fun hc => h hc.symm)]
  | cons p rest ih =>
    obtain ⟨c, st'⟩ := p
    simp only [setStats]
    split
    · rename_i hc
      subst hc
      simp only [getStats]
      rw [if_neg (fun hc => h hc.symm), if_neg (fun hc => h hc.symm)]
    · simp only [getStats]
      split
      · rfl
      · exact ih

theorem statsOf_setStats_same (d : Board) (a : Addr) (v : PlayerStats) :
    statsOf (setStats d a v) a = v := by
  simp [statsOf, getStats_setStats_same]

theorem statsOf_setStats_other (d : Board) (a : Addr) (v : PlayerStats)
    (b : Addr) (h : b ≠ a) : statsOf (setStats d a v) b = statsOf d b := by
  simp [statsOf, getStats_setStats_other d a v b h]

theorem totalGT_cons (b : Addr) (st : PlayerStats) (rest : Board) :
    totalGT ((b, st) :: rest) = st.totalGTWon + totalGT rest := by
  simp [totalGT]

theorem totalGT_setStats_some {d : Board} {a : Addr} {st : PlayerStats}
    (v : PlayerStats) (h : getStats d a = some st) :
    totalGT (setStats d a v)
      = totalGT d - st.totalGTWon + v.totalGTWon := by
  induction d with
  | nil => simp [getStats] at h
  | cons p rest ih =>
    obtain ⟨b, st'⟩ := p
    simp only [getStats] at h
    simp only [setStats]
    split
    · rename_i hb
      rw [if_pos hb] at h
      injection h with h
      subst h
      rw [totalGT_cons, totalGT_cons]
      ring
    · rename_i hb
      rw [if_neg hb] at h
      rw [totalGT_cons, totalGT_cons, ih h]
      ring

theorem totalGT_setStats_none {d : Board} {a : Addr} (v : PlayerStats)
    (h : getStats d a = none) :
    totalGT (setStats d a v) = totalGT d + v.totalGTWon := by
  induction d with
  | nil => simp [setStats, totalGT]
  | cons p rest ih =>
    obtain ⟨b, st'⟩ := p
    simp only [getStats] at h
    split at h
    · exact absurd h (by simp)
    · simp only [setStats]
      rename_i hb
      rw [if_neg hb, totalGT_cons, totalGT_cons, ih h]
      ring

theorem totalGT_ensureZero (d : Board) (a : Addr) :
    totalGT (ensureZero d a) = totalGT d := by
  simp only [ensureZero]
  split
  · rfl
  · rename_i h
    rw [totalGT_setStats_none _ h]
    simp [zeroStats]

/-- In a table whose records all satisfy `wins ≤ matchesPlayed`, so does
the (defaulted) record served for any address. -/
theorem statsOf_wins_le {d : Board}
    (hd : ∀ q ∈ d, q.2.wins ≤ q.2.matchesPlayed) (a : Addr) :
    (statsOf d a).wins ≤ (statsOf d a).matchesPlayed := by
  simp only [statsOf]
  cases h : getStats d a
  · simp [zeroStats]
  · rename_i st
    simpa using hd _ (getStats_mem h)

/-- The winner-side update, normalized through the defaulted record. -/
theorem winnerUpdate_eq (d : Board) (w : Addr) (amt : Nat) :
    winnerUpdate d w amt
      = setStats d w
          { wins := (statsOf d w).wins + 1,
            totalGTWon := (statsOf d w).totalGTWon + gtUnits amt,
            matchesPlayed := (statsOf d w).matchesPlayed + 1 } := by
  simp only [winnerUpdate, statsOf]
  cases h : getStats d w
  · simp [zeroStats]
  · simp

/-- The loser-side update on a successful read-back, normalized through
the defaulted record: only `matchesPlayed` moves. -/
theorem updateLoser_some_eq (d : Board) (w p1 p2 : Addr) :
    updateLoserStats d (some (p1, p2)) w
      = setStats d (if p1 = w then p2 else p1)
          { wins := (statsOf d (if p1 = w then p2 else p1)).wins,
            totalGTWon :=
              (statsOf d (if p1 = w then p2 else p1)).totalGTWon,
            matchesPlayed :=
              (statsOf d (if p1 = w then p2 else p1)).matchesPlayed
                + 1 } := by
  simp only [updateLoserStats, statsOf]
  cases h : getStats d (if p1 = w then p2 else p1)
  · simp [zeroStats]
  · simp

/-- `totalGTWon` accounting for one map write, via the defaulted record. -/
theorem totalGT_setStats (d : Board) (a : Addr) (v : PlayerStats) :
    totalGT (setStats d a v)
      = totalGT d - (statsOf d a).totalGTWon + v.totalGTWon := by
  cases h : getStats d a
  · rw [totalGT_setStats_none v h]
    simp [statsOf, h, zeroStats]
  · rename_i st
    rw [totalGT_setStats_some v h]
    simp [statsOf, h]

/-- Every event handler changes the accumulated `totalGTWon` exactly as
the payout tally prescribes: settlements add their amount (winner side
only — the loser-side update never touches winnings), reset clears, and
everything else is neutral. -/
theorem totalGT_processEv (d : Board) (ev : Ev) :
    totalGT (processEv d ev) = payoutStep (totalGT d) ev := by
  cases ev with
  | matchCreated id p1 p2 st =>
    simp only [processEv, payoutStep]
    rw [totalGT_ensureZero, totalGT_ensureZero]
  | stakedEv id player => rfl
  | settled id winner amount readBack =>
    simp only [processEv, payoutStep, handleSettled]
    cases readBack with
    | none =>
      simp only [updateLoserStats]
      rw [winnerUpdate_eq, totalGT_setStats]
      ring
    | some pr =>
      obtain ⟨p1, p2⟩ := pr
      rw [updateLoser_some_eq, totalGT_setStats, winnerUpdate_eq,
        totalGT_setStats]
      ring
  | refunded id p1 p2 amount =>
    simp only [processEv, payoutStep, handleRefunded]
    have hd1 : ∀ d1 : Board,
        (match getStats d p1 with
          | some st =>
            setStats d p1 { st with matchesPlayed := st.matchesPlayed + 1 }
          | none => d) = d1 →
        totalGT d1 = totalGT d := by
      intro d1 h
      split at h
      · rename_i st hst
        rw [← h, totalGT_setStats_some _ hst]
        ring
      · rw [← h]
    have h1 := hd1 _ rfl
    split
    · rename_i st2 hst2
      rw [totalGT_setStats_some _ hst2, h1]
      ring
    · exact h1
  | purchase buyer u g =>
    simp only [processEv, payoutStep]
    exact totalGT_ensureZero d buyer
  | reset =>
    simp [processEv, payoutStep, totalGT]

/-- Every event handler preserves the per-record bound
`wins ≤ matchesPlayed`. -/
theorem wins_le_processEv (d : Board) (ev : Ev)
    (hd : ∀ q ∈ d, q.2.wins ≤ q.2.matchesPlayed) :
    ∀ q ∈ processEv d ev, q.2.wins ≤ q.2.matchesPlayed := by
  have hset : ∀ (d0 : Board) (a : Addr) (v : PlayerStats),
      (∀ q ∈ d0, q.2.wins ≤ q.2.matchesPlayed) →
      v.wins ≤ v.matchesPlayed →
      ∀ q ∈ setStats d0 a v, q.2.wins ≤ q.2.matchesPlayed := by
    intro d0 a v h0 hv q hq
    rcases mem_setStats hq with h | h
    · rw [h]; exact hv
    · exact h0 q h
  have hzero : ∀ (d0 : Board) (a : Addr),
      (∀ q ∈ d0, q.2.wins ≤ q.2.matchesPlayed) →
      ∀ q ∈ ensureZero d0 a, q.2.wins ≤ q.2.matchesPlayed := by
    intro d0 a h0
    simp only [ensureZero]
    split
    · exact h0
    · exact hset d0 a zeroStats h0 (le_refl 0)
  cases ev with
  | matchCreated id p1 p2 st =>
    exact hzero _ p2 (hzero _ p1 hd)
  | stakedEv id player => exact hd
  | settled id winner amount readBack =>
    simp only [processEv, handleSettled]
    have h1 : ∀ q ∈ winnerUpdate d winner amount,
        q.2.wins ≤ q.2.matchesPlayed := by
      rw [winnerUpdate_eq]
      refine hset _ _ _ hd ?_
      exact Nat.succ_le_succ (statsOf_wins_le hd winner)
    cases readBack with
    | none => simpa only [updateLoserStats] using h1
    | some pr =>
      obtain ⟨p1, p2⟩ := pr
      rw [updateLoser_some_eq]
      refine hset _ _ _ h1 ?_
      exact Nat.le_succ_of_le (statsOf_wins_le h1 _)
  | refunded id p1 p2 amount =>
    simp only [processEv, handleRefunded]
    have hd1 : ∀ d1 : Board,
        (match getStats d p1 with
          | some st =>
            setStats d p1 { st with matchesPlayed := st.matchesPlayed + 1 }
          | none => d) = d1 →
        ∀ q ∈ d1, q.2.wins ≤ q.2.matchesPlayed := by
      intro d1 h
      split at h
      · rename_i st hst
        refine h ▸ hset d p1 _ hd ?_
        have := hd _ (getStats_mem hst)
        simpa using Nat.le_succ_of_le this
      · exact h ▸ hd
    have h1 := hd1 _ rfl
    split
    · rename_i st2 hst2
      refine hset _ _ _ h1 ?_
      have := h1 _ (getStats_mem hst2)
      simpa using Nat.le_succ_of_le this
    · exact h1
  | purchase buyer u g => exact hzero _ buyer hd
  | reset => simp [processEv]

/-- Folding the aggregator over any event stream preserves the per-record
wins bound and tracks the payout tally exactly. -/
theorem processFold_inv (evs : List Ev) : ∀ (d : Board) (acc : ℚ),
    (∀ q ∈ d, q.2.wins ≤ q.2.matchesPlayed) → totalGT d = acc →
    (∀ q ∈ evs.foldl processEv d, q.2.wins ≤ q.2.matchesPlayed) ∧
    totalGT (evs.foldl processEv d) = evs.foldl payoutStep acc := by
  induction evs with
  | nil =>
    intro d acc hd hacc
    exact ⟨hd, hacc⟩
  | cons ev rest ih =>
    intro d acc hd hacc
    simp only [List.foldl_cons]
    refine ih _ _ (wins_le_processEv d ev hd) ?_
    rw [totalGT_processEv, hacc]

/-- C9: after the aggregator processes any event stream (from the last
reset), the served aggregate totals satisfy `totalWins ≤ totalMatches`,
and the accumulated `totalGTWon` is exactly the sum of the settlement
payouts observed since the last reset. -/
theorem c9_aggregate_invariant (evs : List Ev) :
    totalWins (processEvents evs) ≤ totalMatches (processEvents evs) ∧
    totalGT (processEvents evs) = sumPayouts evs := by
  obtain ⟨hw, hg⟩ := processFold_inv evs [] 0 (by simp) (by simp [totalGT])
  constructor
  · exact List.sum_le_sum hw
  · exact hg

/-- C8: for a settlement event whose read-back of the stored match
succeeds, the winner's wins and matches-played counts each increase by
exactly 1 and their cumulative winnings by exactly the payout, while the
loser — resolved from the read-back — gains exactly one matches-played
with wins and winnings unchanged; if the read-back fails, the handler
still returns normally (the catch branch), keeping exactly the winner-side
update and touching no other record. -/
theorem c8_settled_handler (d : Board) (winner p1 p2 : Addr) (amount : Nat)
    (_hw : winner = p1 ∨ winner = p2) (hne : p1 ≠ p2) :
    ((statsOf (handleSettled d winner amount (some (p1, p2))) winner).wins
        = (statsOf d winner).wins + 1 ∧
      (statsOf (handleSettled d winner amount (some (p1, p2)))
          winner).matchesPlayed
        = (statsOf d winner).matchesPlayed + 1 ∧
      (statsOf (handleSettled d winner amount (some (p1, p2)))
          winner).totalGTWon
        = (statsOf d winner).totalGTWon + gtUnits amount) ∧
    ((statsOf (handleSettled d winner amount (some (p1, p2)))
        (if p1 = winner then p2 else p1)).matchesPlayed
        = (statsOf d (if p1 = winner then p2 else p1)).matchesPlayed
            + 1 ∧
      (statsOf (handleSettled d winner amount (some (p1, p2)))
          (if p1 = winner then p2 else p1)).wins
        = (statsOf d (if p1 = winner then p2 else p1)).wins ∧
      (statsOf (handleSettled d winner amount (some (p1, p2)))
          (if p1 = winner then p2 else p1)).totalGTWon
        = (statsOf d (if p1 = winner then p2 else p1)).totalGTWon) ∧
    ((statsOf (handleSettled d winner amount none) winner).wins
        = (statsOf d winner).wins + 1 ∧
      (statsOf (handleSettled d winner amount none) winner).matchesPlayed
        = (statsOf d winner).matchesPlayed + 1 ∧
      (statsOf (handleSettled d winner amount none) winner).totalGTWon
        = (statsOf d winner).totalGTWon + gtUnits amount) ∧
    (∀ a, a ≠ winner →
      statsOf (handleSettled d winner amount none) a = statsOf d a) := by
  have hLne : (if p1 = winner then p2 else p1) ≠ winner := by
    split
    · rename_i hp
      intro hc
      exact hne (hp.trans hc.symm)
    · rename_i hp
      exact hp
  refine ⟨?_, ?_, ?_, ?_⟩
  · simp only [handleSettled, updateLoser_some_eq]
    rw [statsOf_setStats_other _ _ _ _ (Ne.symm hLne), winnerUpdate_eq,
      statsOf_setStats_same]
    exact ⟨rfl, rfl, rfl⟩
  · simp only [handleSettled, updateLoser_some_eq]
    rw [statsOf_setStats_same, winnerUpdate_eq,
      statsOf_setStats_other _ _ _ _ hLne]
    exact ⟨rfl, rfl, rfl⟩
  · simp only [handleSettled, updateLoserStats]
    rw [winnerUpdate_eq, statsOf_setStats_same]
    exact ⟨rfl, rfl, rfl⟩
  · intro a ha
    simp only [handleSettled, updateLoserStats]
    rw [winnerUpdate_eq, statsOf_setStats_other _ _ _ _ ha]

/-! ### Witnesses -/

/-- The witness chain reaches wS3 through deployment, creation and two
stakes at block time 100. -/
theorem reachable_wS3 : Reachable wS3 := by
  have ht1 : opTimeValid (Op.stakeTx 11 100 7) := by
    show (0 : Nat) < 100
    decide
  have ht2 : opTimeValid (Op.stakeTx 12 100 7) := by
    show (0 : Nat) < 100
    decide
  exact Reachable.step (Op.stakeTx 12 100 7)
    (Reachable.step (Op.stakeTx 11 100 7)
      (Reachable.step (Op.create 1 7 11 12 4)
        (Reachable.deploy wTok 1 5) True.intro) ht1) ht2

theorem c1_witness :
    ∃ s2, commitResult wS3 1 7 11 = .ok s2 ∧
      (s2.matchesMap 7).status = MatchStatus.SETTLED ∧
      ((11 : Addr) ≠ wS3.self →
        s2.token.bal 11
          = wS3.token.bal 11 + (wS3.matchesMap 7).stake * 2 ∧
        s2.token.bal wS3.self
          = wS3.token.bal wS3.self - (wS3.matchesMap 7).stake * 2) :=
  (c1_commit_pays_double_stake wS3 1 7 11 rfl (by decide) rfl (by decide)
    (by decide)).1 (Or.inl rfl)

theorem c2_witness :
    allowedTransition (wS3.matchesMap 7).status
      ((applyOp wS3 (.commit 1 7 11)).matchesMap 7).status :=
  c2_status_transitions wS3 (Op.commit 1 7 11) 7 reachable_wS3

theorem c3_amended_witness :
    (wS2.matchesMap 7).status = MatchStatus.PENDING ∧
    (∃ e, refundCall wS2 200000 7 = .error e) ∧
    applyOp wS2 (.refundTx 200000 7) = wS2 :=
  c3_amended_refund_rejected wS0 wS1 wS2 1 11 100 200000 7 11 12 4 rfl rfl

theorem c4_witness : ∃ s2, refundCall wS3 86500 7 = .ok s2 :=
  (c4_refund_iff_timeout wS3 86500 7 (by decide) rfl (by decide)
    (by decide)).mpr (by decide)

theorem c5_witness :
    (10 : Nat) ≠ 0 ∧
    (10 : Nat) * wStore.gtPerUsdt / 1000000 ≠ 0 ∧
    wStore.usdt.transferFrom 20 wStore.self wStore.self 10
      = some wStoreAfter.usdt ∧
    wStoreAfter.gtBal 20
      = wStore.gtBal 20 + 10 * wStore.gtPerUsdt / 1000000 := by
  have h := (c5_buy_fixed_rate wStore 20 10).2.2 wStoreAfter rfl
  exact ⟨h.1, h.2.1, h.2.2.1, h.2.2.2.1⟩

theorem c6_witness :
    (∃ e, stakeCall wS2 11 100 7 = .error e) ∧
    applyOp wS2 (.stakeTx 11 100 7) = wS2 := by
  have h := c6_stake_rejections wS2 11 100 7
  have herr := h.2.2.2.1 rfl rfl
  refine ⟨herr, ?_⟩
  obtain ⟨e, he⟩ := herr
  exact h.2.2.2.2.2 e he

theorem c7_witness :
    wS1.matchesMap 7
      = { p1 := 11, p2 := 12, stake := 4, startTime := 0,
          status := MatchStatus.PENDING,
          p1Staked := false, p2Staked := false } ∧
    (∃ e, createMatch wS1 1 7 11 12 4 = .error e) ∧
    applyOp wS1 (.create 1 7 11 12 4) = wS1 := by
  have h := c7_create_duplicate_rejected wS0 wS1 1 7 11 12 4 rfl
  exact ⟨h.1, (h.2 1 11 12 4).1, (h.2 1 11 12 4).2⟩

theorem c8_witness :
    (statsOf (handleSettled [] 11 4 (some (11, 12))) 11).wins
      = (statsOf ([] : Board) 11).wins + 1 ∧
    (statsOf (handleSettled [] 11 4 (some (11, 12))) 12).matchesPlayed
      = (statsOf ([] : Board) 12).matchesPlayed + 1 := by
  have h := c8_settled_handler [] 11 11 12 4 (Or.inl rfl) (by decide)
  refine ⟨h.1.1, ?_⟩
  have h2 := h.2.1.1
  simpa using h2

theorem c10_witness :
    (wS3.matchesMap 7).p1Staked = true ∧
    (wS3.matchesMap 7).p2Staked = true ∧
    (wS3.matchesMap 7).startTime ≠ 0 := by
  have h := c10_reachable_flag_inv wS3 reachable_wS3 7
  exact h.1 (Or.inl rfl)

end Wesee
